import Mathlib

/-!
Verification of the alasco-money value-type core (`_original_money.py`).

The Python `decimal.Decimal` amounts are modelled as exact rationals (`ℚ`):
the code configures an arbitrary-precision decimal context and every
operation the claims exercise stays well inside it, so exact rational
arithmetic is the faithful shallow embedding.  Python's `ROUND_HALF_EVEN`
(the default rounding of `Decimal.quantize` and `round(Decimal, n)`) is
modelled explicitly by `roundHalfEven`.  Fallible decimal operations
(division) return `Except PyErr _`, mirroring the distinct
`decimal.DivisionByZero` / `decimal.InvalidOperation` exceptions of the
Python decimal module, and Python's binary-operator dispatch protocol
(`__add__` / reflected `__radd__` / `NotImplemented` → `TypeError`) is
modelled on a small universe `Obj` of operand values.
-/

namespace AlascoMoney

/-- Python exception classes that the modelled code paths can raise. -/
inductive PyErr where
  | typeError
  | attributeError
  | divisionByZero
  | invalidOperation
deriving DecidableEq

/-- Round-half-even ("banker's rounding") to an integer, as used by
`decimal.Decimal.quantize` / `round(Decimal, n)` with the default context. -/
def roundHalfEven (q : ℚ) : ℤ :=
  let f := ⌊q⌋
  let r := q - f
  if r < 1 / 2 then f
  else if r > 1 / 2 then f + 1
  else if f % 2 = 0 then f else f + 1

/-- `round(amount, n)` on a decimal: half-even rounding to `n` fractional
digits (`n` may be negative, as `Decimal.__round__` allows). -/
def decRound (q : ℚ) (n : ℤ) : ℚ :=
  (roundHalfEven (q * 10 ^ n) : ℚ) / 10 ^ n

/-- Division of two decimals.  The Python decimal module raises
`DivisionByZero` for `x / 0` with `x ≠ 0` and `InvalidOperation`
(division undefined) for `0 / 0`; both traps are enabled by default. -/
def decDiv (x y : ℚ) : Except PyErr ℚ :=
  if y = 0 then .error (if x = 0 then .invalidOperation else .divisionByZero)
  else .ok (x / y)

/-- `Money`: immutable wrapper around a decimal amount
(`Money.__slots__ = ("_amount",)`).  Currency is ambient process state,
never stored, and never participates in arithmetic or equality. -/
structure Money where
  amount : ℚ
deriving DecidableEq

/-- `Money.__add__` for a `Money` right operand: `Money(self.amount + other.amount)`. -/
def Money.add (a b : Money) : Money := ⟨a.amount + b.amount⟩

/-- `Money.__neg__`: `Money(-self.amount)`. -/
def Money.neg (a : Money) : Money := ⟨-a.amount⟩

/-- `Money.__sub__` for a `Money` right operand: `self.__add__(-other)`. -/
def Money.sub (a b : Money) : Money := a.add b.neg

/-- `Money.__mul__` by a scalar: `Money(self.amount * other)`. -/
def Money.mulScalar (a : Money) (q : ℚ) : Money := ⟨a.amount * q⟩

/-- `Money.round(n)`: `Money(round(self.amount, n))`. -/
def Money.round (a : Money) (n : ℤ) : Money := ⟨decRound a.amount n⟩

/-- `Money.__truediv__` with a `Money` right operand: a plain decimal. -/
def Money.divMoney (a b : Money) : Except PyErr ℚ := decDiv a.amount b.amount

/-- `Money.__abs__`: `Money(abs(self.amount))`. -/
def Money.absMoney (a : Money) : Money := ⟨|a.amount|⟩

/-- `Money.__bool__`: nonzero test of the amount. -/
def Money.toBool (a : Money) : Bool := a.amount != 0

/-- `MoneyWithVAT`: immutable `(net, tax)` pair of `Money`
(`__slots__ = ("_net", "_tax")`).  `gross` is derived, never stored. -/
structure MoneyWithVAT where
  net : Money
  tax : Money
deriving DecidableEq

/-- The `gross` property: computed as `self.net + self.tax` on every
access; the class has no slot that could cache it. -/
def MoneyWithVAT.gross (m : MoneyWithVAT) : Money := m.net.add m.tax

/-- `MoneyWithVAT.__bool__`: `bool(self.net) or bool(self.tax)`. -/
def MoneyWithVAT.toBool (m : MoneyWithVAT) : Bool :=
  m.net.toBool || m.tax.toBool

/-- `MoneyWithVAT.__neg__`: `MoneyWithVAT(net=-1 * self._net, tax=-1 * self._tax)`. -/
def MoneyWithVAT.negVat (m : MoneyWithVAT) : MoneyWithVAT :=
  ⟨m.net.mulScalar (-1), m.tax.mulScalar (-1)⟩

/-- `MoneyWithVAT.__add__` for a `MoneyWithVAT` right operand
(the non-`MoneyWithVAT` case is part of the `Obj` dispatch model below). -/
def MoneyWithVAT.addVat (a b : MoneyWithVAT) : MoneyWithVAT :=
  ⟨a.net.add b.net, a.tax.add b.tax⟩

/-- `MoneyWithVAT.rounded_to_cents()`:
`rounded_net = self.net.round(2)`;
result is `MoneyWithVAT(rounded_net, self.gross.round(2) - rounded_net)`. -/
def MoneyWithVAT.rounded_to_cents (m : MoneyWithVAT) : MoneyWithVAT :=
  let rounded_net := m.net.round 2
  ⟨rounded_net, (m.gross.round 2).sub rounded_net⟩

/-- `tax_rate`: `0` if the net amount is zero, else `self._tax / self._net`
(an exact decimal quotient). -/
def MoneyWithVAT.tax_rate (m : MoneyWithVAT) : ℚ :=
  if m.net.amount = 0 then 0 else m.tax.amount / m.net.amount

/-- `_KNOWN_VAT_RATES = tuple(set(GERMAN + AUSTRIAN + DENMARK))`:
the nine distinct known legal VAT rates
0.19, 0.16, 0.07, 0.05, 0 (Germany), 0.20, 0.13, 0.10 (Austria),
0.25 (Denmark).  CPython's set iteration order over these `Decimal`s is
deterministic per run but unspecified by the language; the embedding fixes
one concrete order for the scan. -/
def KNOWN_VAT_RATES : List ℚ :=
  [19 / 100, 16 / 100, 7 / 100, 5 / 100, 20 / 100, 13 / 100, 10 / 100, 25 / 100, 0]

/-- The `for rate in self._KNOWN_VAT_RATES` loop body of
`tax_rate_for_display`: return the first rate with
`abs(rate * net - tax) < Decimal("0.05")`, else fall through. -/
def scanRates (net tax : ℚ) : List ℚ → Option ℚ
  | [] => none
  | r :: rest => if |r * net - tax| < 5 / 100 then some r else scanRates net tax rest

/-- `tax_rate_for_display`: exact catalogue hit is returned unchanged;
otherwise the catalogue is scanned for the first rate whose implied tax
is within 0.05 of the actual tax; otherwise the raw `tax_rate`. -/
def MoneyWithVAT.tax_rate_for_display (m : MoneyWithVAT) : ℚ :=
  let tr := m.tax_rate
  if tr ∈ KNOWN_VAT_RATES then tr
  else
    match scanRates m.net.amount m.tax.amount KNOWN_VAT_RATES with
    | some r => r
    | none => tr

/-- One iteration of the `fast_sum` loop: `if not operand: continue`
skips `None` *and* falsy (zero-valued) instances, otherwise the two
decimal accumulators advance. -/
def sumStep (acc : ℚ × ℚ) : Option MoneyWithVAT → ℚ × ℚ
  | none => acc
  | some m =>
    if m.toBool = false then acc
    else (acc.1 + m.net.amount, acc.2 + m.tax.amount)

/-- `MoneyWithVAT.fast_sum(operands)`: single-pass accumulation of the two
decimal sums into one new instance. -/
def MoneyWithVAT.fast_sum (operands : List (Option MoneyWithVAT)) : MoneyWithVAT :=
  let p := operands.foldl sumStep (0, 0)
  ⟨⟨p.1⟩, ⟨p.2⟩⟩

/-- `fast_sum_with_none`: `None` when the `fast_sum` result is falsy and
every operand was `None`, else the `fast_sum` result. -/
def MoneyWithVAT.fast_sum_with_none
    (operands : List (Option MoneyWithVAT)) : Option MoneyWithVAT :=
  let result := MoneyWithVAT.fast_sum operands
  if result.toBool = false ∧ operands.all (fun o => o.isNone) then none
  else some result

/-- The body of `MoneyWithVAT.max`: `net = max(nets)`,
`tax = max(grosses) - max(nets)`; Python's `max` over an empty iterable
raises `ValueError`, modelled as `none`. -/
def maxMoneys : List MoneyWithVAT → Option MoneyWithVAT
  | [] => none
  | m :: rest =>
    let maxNet := rest.foldl (fun acc v => Max.max acc v.net.amount) m.net.amount
    let maxGross := rest.foldl (fun acc v => Max.max acc v.gross.amount) m.gross.amount
    some ⟨⟨maxNet⟩, ⟨maxGross - maxNet⟩⟩

/-- An argument of the variadic `MoneyWithVAT.max(*args)`: either a single
`MoneyWithVAT` operand or a sequence of them. -/
inductive MaxArg where
  | vat (v : MoneyWithVAT)
  | seq (l : List MoneyWithVAT)

/-- `args[0] if len(args) == 1 else args`: the sole singleton argument is
used as the sequence of operands; a singleton `MoneyWithVAT` is not
iterable (`TypeError`), and a sequence among several variadic operands has
no `.net` (`AttributeError`); both error paths are collapsed to `none`. -/
def collectVats (a : MaxArg) (acc : Option (List MoneyWithVAT)) :
    Option (List MoneyWithVAT) :=
  match a, acc with
  | .vat v, some l => some (v :: l)
  | _, _ => none

def maxArgsToList : List MaxArg → Option (List MoneyWithVAT)
  | [] => none
  | [.seq l] => some l
  | [.vat _] => none
  | args => args.foldr collectVats (some [])

/-- `MoneyWithVAT.max(*args)` including the call-form dispatch. -/
def MoneyWithVAT.maxOf (args : List MaxArg) : Option MoneyWithVAT :=
  (maxArgsToList args).bind maxMoneys

/-- `MoneyWithVATRatio`: immutable dimensionless `(net_ratio, gross_ratio)`
pair (`__slots__ = ("_net_ratio", "_gross_ratio")`). -/
structure MoneyWithVATRatio where
  net_ratio : ℚ
  gross_ratio : ℚ
deriving DecidableEq

/-- `MoneyWithVATRatio.from_money_with_vat(dividend, divisor)`:
`net_ratio = dividend.net / divisor.net` (evaluated first),
`gross_ratio = dividend.gross / divisor.gross`; decimal division errors
propagate. -/
def MoneyWithVATRatio.from_money_with_vat
    (dividend divisor : MoneyWithVAT) : Except PyErr MoneyWithVATRatio :=
  match decDiv dividend.net.amount divisor.net.amount with
  | .error e => .error e
  | .ok nr =>
    match decDiv dividend.gross.amount divisor.gross.amount with
    | .error e => .error e
    | .ok gr => .ok ⟨nr, gr⟩

/-- `MoneyWithVATRatio.__mul__` with a `MoneyWithVAT` operand:
`amount = self.net_ratio * other.net`;
result is `MoneyWithVAT(net=amount, tax=other.gross * self.gross_ratio - amount)`. -/
def MoneyWithVATRatio.mulVat
    (r : MoneyWithVATRatio) (other : MoneyWithVAT) : MoneyWithVAT :=
  let amount := other.net.mulScalar r.net_ratio
  ⟨amount, (other.gross.mulScalar r.gross_ratio).sub amount⟩

/-- Right operand of `MoneyWithVAT.__mul__`: a scalar or a ratio. -/
inductive VatMulArg where
  | scalar (q : ℚ)
  | ratio (r : MoneyWithVATRatio)

/-- `MoneyWithVAT.__mul__`: a `MoneyWithVATRatio` operand delegates to
`other * self`; a scalar scales net and tax. -/
def MoneyWithVAT.mulArg (self : MoneyWithVAT) : VatMulArg → MoneyWithVAT
  | .ratio r => r.mulVat self
  | .scalar q => ⟨self.net.mulScalar q, self.tax.mulScalar q⟩

/-- The universe of Python operand values the dispatch claims range over:
`None`, `int`, `Money`, `MoneyWithVAT`. -/
inductive Obj where
  | pynone
  | int (n : ℤ)
  | money (m : Money)
  | vat (v : MoneyWithVAT)
deriving DecidableEq

/-- `isinstance(x, MoneyWithVAT)` on the operand universe. -/
def Obj.isVat : Obj → Bool
  | .vat _ => true
  | _ => false

/-- `MoneyWithVAT.ratio(dividend, divisor)`: `TypeError` unless both
arguments are `MoneyWithVAT`, else `MoneyWithVATRatio.from_money_with_vat`. -/
def MoneyWithVAT.ratio (dividend divisor : Obj) : Except PyErr MoneyWithVATRatio :=
  match dividend, divisor with
  | .vat d, .vat v => MoneyWithVATRatio.from_money_with_vat d v
  | _, _ => .error .typeError

/-- `MoneyWithVAT.safe_ratio(dividend, divisor)`: the ratio of the
cents-rounded operands, with `InvalidOperation`, `DivisionByZero`,
`TypeError` and `AttributeError` (a non-`MoneyWithVAT` argument has no
`rounded_to_cents`) all converted to `None`. -/
def MoneyWithVAT.safe_ratio (dividend divisor : Obj) : Option MoneyWithVATRatio :=
  match dividend, divisor with
  | .vat d, .vat v =>
    match MoneyWithVATRatio.from_money_with_vat d.rounded_to_cents v.rounded_to_cents with
    | .ok r => some r
    | .error _ => none
  | _, _ => none

/-! ### Python binary-operator dispatch

A method returning `Option (Except PyErr Obj)` models a Python slot:
`none` is `NotImplemented`, `some (.error e)` a raised exception, and
`some (.ok v)` a result.  `pyAdd`/`pySub`/`pyMul` run Python's protocol:
try the left operand's slot, then the right operand's reflected slot,
then raise `TypeError`. -/

/-- `Money.__add__`: `NotImplemented` unless the operand is a `Money`. -/
def Money.addMethod (self : Money) : Obj → Option (Except PyErr Obj)
  | .money o => some (.ok (.money (self.add o)))
  | _ => none

/-- `Money.__radd__`: identity for the literal int `0`, `NotImplemented`
for other ints, else `other.__add__(self)`. -/
def Money.raddMethod (self : Money) : Obj → Option (Except PyErr Obj)
  | .int n => if n = 0 then some (.ok (.money self)) else none
  | .money o => o.addMethod (.money self)
  | .vat _ => some (.error .attributeError)
  | .pynone => some (.error .attributeError)

/-- `MoneyWithVAT.__add__`: accesses `other.net`, so any
non-`MoneyWithVAT` operand raises `AttributeError`. -/
def MoneyWithVAT.addMethod (self : MoneyWithVAT) : Obj → Option (Except PyErr Obj)
  | .vat o => some (.ok (.vat (self.addVat o)))
  | _ => some (.error .attributeError)

/-- `MoneyWithVAT.__radd__`: identity for the literal int `0`,
`NotImplemented` for other ints, else `other.__add__(self)`. -/
def MoneyWithVAT.raddMethod (self : MoneyWithVAT) : Obj → Option (Except PyErr Obj)
  | .int n => if n = 0 then some (.ok (.vat self)) else none
  | .money o => o.addMethod (.vat self)
  | .vat o => o.addMethod (.vat self)
  | .pynone => some (.error .attributeError)

/-- `int.__add__`: `NotImplemented` unless the operand is an int. -/
def intAddMethod (a : ℤ) : Obj → Option (Except PyErr Obj)
  | .int b => some (.ok (.int (a + b)))
  | _ => none

/-- The left operand's `__add__` slot (`None` has no `__add__`). -/
def addMethodOf : Obj → Obj → Option (Except PyErr Obj)
  | .int a, o => intAddMethod a o
  | .money m, o => m.addMethod o
  | .vat v, o => v.addMethod o
  | .pynone, _ => none

/-- The right operand's `__radd__` slot (first argument is the right
operand, second the left). -/
def raddMethodOf : Obj → Obj → Option (Except PyErr Obj)
  | .int a, o => intAddMethod a o
  | .money m, o => m.raddMethod o
  | .vat v, o => v.raddMethod o
  | .pynone, _ => none

/-- Python evaluation of `a + b`. -/
def pyAdd (a b : Obj) : Except PyErr Obj :=
  match addMethodOf a b with
  | some r => r
  | none =>
    match raddMethodOf b a with
    | some r => r
    | none => .error .typeError

/-- Unary `-other` inside `__sub__`; `-None` raises `TypeError`. -/
def negObj : Obj → Except PyErr Obj
  | .pynone => .error .typeError
  | .int n => .ok (.int (-n))
  | .money m => .ok (.money m.neg)
  | .vat v => .ok (.vat v.negVat)

/-- `Money.__sub__`: `self.__add__(-other)`. -/
def Money.subMethod (self : Money) (other : Obj) : Option (Except PyErr Obj) :=
  match negObj other with
  | .error e => some (.error e)
  | .ok no => self.addMethod no

/-- `Money.__rsub__`: `(-self).__radd__(other)`. -/
def Money.rsubMethod (self : Money) (other : Obj) : Option (Except PyErr Obj) :=
  self.neg.raddMethod other

/-- `MoneyWithVAT.__sub__`: `self.__add__(-other)`. -/
def MoneyWithVAT.subMethod (self : MoneyWithVAT) (other : Obj) :
    Option (Except PyErr Obj) :=
  match negObj other with
  | .error e => some (.error e)
  | .ok no => self.addMethod no

/-- `int.__sub__`. -/
def intSubMethod (a : ℤ) : Obj → Option (Except PyErr Obj)
  | .int b => some (.ok (.int (a - b)))
  | _ => none

/-- The left operand's `__sub__` slot. -/
def subMethodOf : Obj → Obj → Option (Except PyErr Obj)
  | .int a, o => intSubMethod a o
  | .money m, o => m.subMethod o
  | .vat v, o => v.subMethod o
  | .pynone, _ => none

/-- The right operand's `__rsub__` slot.  For `MoneyWithVAT` the source
sets `__rsub__ = __sub__` (line 788), so the operands are NOT swapped and
a non-`MoneyWithVAT` left operand reaches `other.net`. -/
def rsubMethodOf : Obj → Obj → Option (Except PyErr Obj)
  | .int a, o =>
    match o with
    | .int b => some (.ok (.int (b - a)))
    | _ => none
  | .money m, o => m.rsubMethod o
  | .vat v, o => v.subMethod o
  | .pynone, _ => none

/-- Python evaluation of `a - b`. -/
def pySub (a b : Obj) : Except PyErr Obj :=
  match subMethodOf a b with
  | some r => r
  | none =>
    match rsubMethodOf b a with
    | some r => r
    | none => .error .typeError

/-- `Money.__mul__`: `NotImplemented` for a `Money` operand, scaling for a
scalar; `Money * MoneyWithVAT` and `Money * None` raise `TypeError` inside
the method (via `Decimal.__mul__` / `Decimal(...)`). -/
def Money.mulMethod (self : Money) : Obj → Option (Except PyErr Obj)
  | .money _ => none
  | .int n => some (.ok (.money (self.mulScalar n)))
  | .vat _ => some (.error .typeError)
  | .pynone => some (.error .typeError)

/-- `MoneyWithVAT.__mul__` restricted to `Obj` operands: scaling for an
int; `self.net * other` raises `TypeError` for the rest. -/
def MoneyWithVAT.mulMethod (self : MoneyWithVAT) : Obj → Option (Except PyErr Obj)
  | .int n => some (.ok (.vat ⟨self.net.mulScalar n, self.tax.mulScalar n⟩))
  | _ => some (.error .typeError)

/-- The left operand's `__mul__` slot; `__rmul__ = __mul__` for both
`Money` and `MoneyWithVAT`, and int multiplication is commutative, so the
same table serves both sides. -/
def mulMethodOf : Obj → Obj → Option (Except PyErr Obj)
  | .int a, o =>
    match o with
    | .int b => some (.ok (.int (a * b)))
    | _ => none
  | .money m, o => m.mulMethod o
  | .vat v, o => v.mulMethod o
  | .pynone, _ => none

/-- Python evaluation of `a * b`. -/
def pyMul (a b : Obj) : Except PyErr Obj :=
  match mulMethodOf a b with
  | some r => r
  | none =>
    match mulMethodOf b a with
    | some r => r
    | none => .error .typeError

/-! ### Canonical JSON encoding (`Money.for_json`) and decoding

`Money.for_json` quantizes the amount to 12 fractional digits in a
28-significant-digit context and prints it with `f"{...:f}"`, which always
produces plain fixed-point notation.  The decoder
(`_pydantic_validate_money`) parses the string back through
`Decimal(str)`; `parseDecimal` models that parser on the fixed-point
grammar the encoder emits. -/

/-- Parse one ASCII decimal digit character. -/
def charToDigit (c : Char) : Option ℕ :=
  if 48 ≤ c.toNat ∧ c.toNat ≤ 57 then some (c.toNat - 48) else none

/-- Most-significant-first decimal digit characters of `n`
(fuel-structured so the kernel can evaluate it). -/
def natCharsAux : ℕ → ℕ → List Char
  | 0, _ => []
  | fuel + 1, n =>
    if n = 0 then [] else natCharsAux fuel (n / 10) ++ [Nat.digitChar (n % 10)]

/-- Decimal digit characters of `n`, `"0"` for zero. -/
def natChars (n : ℕ) : List Char :=
  if n = 0 then ['0'] else natCharsAux (n + 1) n

/-- The exactly-12-character fractional block: digit characters of
`n < 10^12`, left-padded with `'0'`. -/
def fracChars (n : ℕ) : List Char :=
  let ds := natCharsAux (n + 1) n
  List.replicate (12 - ds.length) '0' ++ ds

/-- `Money.for_json`: quantize the amount to 12 fractional digits
(half-even, at precision 28 — a coefficient beyond 28 digits raises
`InvalidOperation`, modelled as `none`) and format the result in
fixed-point with exactly 12 fractional digits. -/
def Money.for_json (m : Money) : Option String :=
  let k := roundHalfEven (m.amount * 10 ^ (12 : ℕ))
  if k.natAbs < 10 ^ 28 then
    some (String.mk ((if k < 0 then ['-'] else []) ++
      natChars (k.natAbs / 10 ^ 12) ++ '.' :: fracChars (k.natAbs % 10 ^ 12)))
  else none

/-- One step of the digit fold: `acc * 10 + digit`. -/
def stepDigit (a : Option ℕ) (c : Char) : Option ℕ :=
  match a, charToDigit c with
  | some x, some d => some (x * 10 + d)
  | _, _ => none

/-- Fold a digit-character block into the natural number it denotes. -/
def parseFold (l : List Char) (acc : ℕ) : Option ℕ :=
  l.foldl stepDigit (some acc)

/-- Split at the first `'.'`: integer-part characters and, if a dot was
present, the characters after it. -/
def splitAtDot : List Char → List Char × Option (List Char)
  | [] => ([], none)
  | c :: rest =>
    if c = '.' then ([], some rest)
    else (c :: (splitAtDot rest).1, (splitAtDot rest).2)

/-- Parse an unsigned fixed-point decimal character sequence. -/
def parseUnsigned (l : List Char) : Option ℚ :=
  let p := splitAtDot l
  match p.2 with
  | none => (parseFold l 0).map (fun a => (a : ℚ))
  | some f =>
    match parseFold p.1 0, parseFold f 0 with
    | some a, some b => some ((a : ℚ) + (b : ℚ) / 10 ^ f.length)
    | _, _ => none

/-- Parse an optionally `'-'`-signed fixed-point decimal character list. -/
def parseDecimalChars : List Char → Option ℚ
  | [] => none
  | c :: rest =>
    if c = '-' then (parseUnsigned rest).map (fun q => -q)
    else parseUnsigned (c :: rest)

/-- `Decimal(value)` on the plain fixed-point decimal strings the
canonical encoder emits. -/
def parseDecimal (s : String) : Option ℚ := parseDecimalChars s.data

/-- Decoding a `Money` (`_pydantic_validate_money` on a decimal string). -/
def decodeMoney (s : String) : Option Money := (parseDecimal s).map Money.mk

/-- `MoneyWithVAT.for_json`: `{"net": ..., "tax": ...}` as the pair of the
two component encodings. -/
def MoneyWithVAT.for_json (m : MoneyWithVAT) : Option (String × String) :=
  match m.net.for_json, m.tax.for_json with
  | some a, some b => some (a, b)
  | _, _ => none

/-- `_pydantic_validate_money_vat` on `{"net": s₁, "tax": s₂}` (both keys
are required; each value is decoded as a `Money`). -/
def decodeVat (p : String × String) : Option MoneyWithVAT :=
  match decodeMoney p.1, decodeMoney p.2 with
  | some n, some t => some ⟨n, t⟩
  | _, _ => none

/-! ## C1: gross invariant -/

/-- C1: for every `MoneyWithVAT`, `gross == net + tax`.  In the source
`gross` is a property computed as `self.net + self.tax` on each access and
the class has no slot that could cache it; the embedding mirrors this by
making `gross` a derived function of the two stored fields, so the
identity holds for every value — in particular after every constructor
and every operation that produces a `MoneyWithVAT`. -/
theorem gross_is_net_plus_tax (m : MoneyWithVAT) :
    m.gross = m.net.add m.tax ∧ m.gross.amount = m.net.amount + m.tax.amount :=
  ⟨rfl, rfl⟩

/-! ## C2: rounded_to_cents -/

/-- C2: `rounded_to_cents` rounds `net` to 2 decimals (half-even) and
derives `tax` as `gross.round(2)` minus the rounded net, so the result's
gross is exactly `gross.round(2)`; on net=4.444, tax=2.222 this gives
net=4.44, tax=2.23, gross=6.67. -/
theorem rounded_to_cents_spec (m : MoneyWithVAT) :
    m.rounded_to_cents = ⟨m.net.round 2, (m.gross.round 2).sub (m.net.round 2)⟩ ∧
    m.rounded_to_cents.gross = m.gross.round 2 ∧
    (MoneyWithVAT.mk ⟨4444 / 1000⟩ ⟨2222 / 1000⟩).rounded_to_cents =
      ⟨⟨444 / 100⟩, ⟨223 / 100⟩⟩ ∧
    (MoneyWithVAT.mk ⟨4444 / 1000⟩ ⟨2222 / 1000⟩).rounded_to_cents.gross =
      ⟨667 / 100⟩ := by
  refine ⟨rfl, ?_, ?_, ?_⟩
  · simp only [MoneyWithVAT.rounded_to_cents, MoneyWithVAT.gross, Money.add, Money.sub,
      Money.neg, Money.round, Money.mk.injEq]
    ring
  · norm_num [MoneyWithVAT.rounded_to_cents, MoneyWithVAT.gross, Money.add, Money.sub,
      Money.neg, Money.round, decRound, roundHalfEven]
  · norm_num [MoneyWithVAT.rounded_to_cents, MoneyWithVAT.gross, Money.add, Money.sub,
      Money.neg, Money.round, decRound, roundHalfEven]

/-! ## C5: fast_sum / fast_sum_with_none -/

lemma foldl_sumStep (ops : List (Option MoneyWithVAT)) (acc : ℚ × ℚ) :
    ops.foldl sumStep acc =
      (acc.1 + ((ops.filterMap id).map fun m => m.net.amount).sum,
       acc.2 + ((ops.filterMap id).map fun m => m.tax.amount).sum) := by
  induction ops generalizing acc with
  | nil => simp
  | cons o t ih =>
    cases o with
    | none => simpa [sumStep] using ih acc
    | some m =>
      by_cases hb : m.toBool = false
      · have hz : m.net.amount = 0 ∧ m.tax.amount = 0 := by
          simpa [MoneyWithVAT.toBool, Money.toBool] using hb
        simp [sumStep, hb, ih acc, hz.1, hz.2]
      · have hstep : sumStep acc (some m) = (acc.1 + m.net.amount, acc.2 + m.tax.amount) := by
          show (if m.toBool = false then acc
            else (acc.1 + m.net.amount, acc.2 + m.tax.amount)) = _
          rw [if_neg hb]
        simp only [List.foldl_cons, hstep]
        rw [ih]
        simp only [List.filterMap_cons, id, List.map_cons, List.sum_cons, Prod.mk.injEq]
        constructor <;> ring

/-- C5: `fast_sum` accumulates exactly the non-empty operands' nets and
taxes (`fast_sum [] = MoneyWithVAT(0,0)`), and `fast_sum_with_none` is
empty iff every operand was empty, so `fast_sum_with_none []` and
`fast_sum_with_none [empty, empty]` are empty while
`fast_sum_with_none [MoneyWithVAT(0,0)]` is the zero instance, not empty. -/
theorem fast_sum_spec :
    (∀ ops : List (Option MoneyWithVAT),
      (MoneyWithVAT.fast_sum ops).net.amount
          = ((ops.filterMap id).map fun m => m.net.amount).sum ∧
      (MoneyWithVAT.fast_sum ops).tax.amount
          = ((ops.filterMap id).map fun m => m.tax.amount).sum) ∧
    MoneyWithVAT.fast_sum [] = ⟨⟨0⟩, ⟨0⟩⟩ ∧
    (∀ ops, MoneyWithVAT.fast_sum_with_none ops = none ↔ ∀ o ∈ ops, o = none) ∧
    MoneyWithVAT.fast_sum_with_none [] = none ∧
    MoneyWithVAT.fast_sum_with_none [none, none] = none ∧
    MoneyWithVAT.fast_sum_with_none [some ⟨⟨0⟩, ⟨0⟩⟩] = some ⟨⟨0⟩, ⟨0⟩⟩ := by
  have hsum : ∀ ops : List (Option MoneyWithVAT),
      MoneyWithVAT.fast_sum ops =
        ⟨⟨((ops.filterMap id).map fun m => m.net.amount).sum⟩,
         ⟨((ops.filterMap id).map fun m => m.tax.amount).sum⟩⟩ := by
    intro ops
    simp [MoneyWithVAT.fast_sum, foldl_sumStep]
  refine ⟨fun ops => by rw [hsum ops]; exact ⟨rfl, rfl⟩, rfl, ?_, ?_, ?_, ?_⟩
  · intro ops
    constructor
    · intro h
      simp only [MoneyWithVAT.fast_sum_with_none] at h
      split at h
      · rename_i hc
        intro o ho
        have h2 := hc.2
        rw [List.all_eq_true] at h2
        simpa [Option.isNone_iff_eq_none] using h2 o ho
      · simp at h
    · intro hall
      have hnil : ops.filterMap id = [] := by
        rw [List.filterMap_eq_nil_iff]
        intro o ho
        rw [hall o ho]
        rfl
      have hz : MoneyWithVAT.fast_sum ops = ⟨⟨0⟩, ⟨0⟩⟩ := by
        rw [hsum ops, hnil]
        simp
      have hb : (MoneyWithVAT.fast_sum ops).toBool = false := by
        rw [hz]
        simp [MoneyWithVAT.toBool, Money.toBool]
      have ha : ops.all (fun o => o.isNone) = true := by
        rw [List.all_eq_true]
        intro o ho
        rw [hall o ho]
        rfl
      simp [MoneyWithVAT.fast_sum_with_none, hb, ha]
  · rfl
  · rfl
  · simp [MoneyWithVAT.fast_sum_with_none, MoneyWithVAT.fast_sum, sumStep,
      MoneyWithVAT.toBool, Money.toBool]

/-- C5 witness: the membership hypotheses inside `fast_sum_spec` hold at
concrete inputs. -/
theorem fast_sum_spec_witness :
    MoneyWithVAT.fast_sum_with_none [none] = none ∧
    MoneyWithVAT.fast_sum_with_none [some ⟨⟨1⟩, ⟨2⟩⟩] ≠ none :=
  ⟨(fast_sum_spec.2.2.1 [none]).mpr (by simp),
   fun h => by
     have h2 := (fast_sum_spec.2.2.1 [some ⟨⟨1⟩, ⟨2⟩⟩]).mp h (some ⟨⟨1⟩, ⟨2⟩⟩) (by simp)
     exact Option.noConfusion h2⟩

/-! ## C9: tax_rate_for_display -/

lemma scanRates_eq_find (net tax : ℚ) (l : List ℚ) :
    scanRates net tax l = l.find? fun r => decide (|r * net - tax| < 5 / 100) := by
  induction l with
  | nil => rfl
  | cons r rest ih =>
    by_cases h : |r * net - tax| < 5 / 100
    · simp [scanRates, h, List.find?]
    · simp [scanRates, h, List.find?, ih]

/-- C9: `tax_rate_for_display` returns `tax_rate` unchanged on an exact
hit in the fixed nine-rate catalogue; otherwise it returns the first
catalogue rate whose implied tax (`rate * net`) is within 0.05 of the
actual tax, falling back to the raw `tax_rate` when none matches. -/
theorem tax_rate_for_display_spec (m : MoneyWithVAT) :
    m.tax_rate_for_display =
      (if m.tax_rate ∈ KNOWN_VAT_RATES then m.tax_rate
       else ((KNOWN_VAT_RATES.find? fun r =>
          decide (|r * m.net.amount - m.tax.amount| < 5 / 100)).getD m.tax_rate)) ∧
    KNOWN_VAT_RATES =
      [19 / 100, 16 / 100, 7 / 100, 5 / 100, 20 / 100, 13 / 100, 10 / 100, 25 / 100, 0] ∧
    m.tax_rate = (if m.net.amount = 0 then 0 else m.tax.amount / m.net.amount) := by
  refine ⟨?_, rfl, rfl⟩
  by_cases h : m.tax_rate ∈ KNOWN_VAT_RATES
  · simp [MoneyWithVAT.tax_rate_for_display, h]
  · simp only [MoneyWithVAT.tax_rate_for_display, h, if_false, scanRates_eq_find]
    cases hf : KNOWN_VAT_RATES.find? fun r =>
        decide (|r * m.net.amount - m.tax.amount| < 5 / 100) <;>
      simp [hf]

/-! ## C10: MoneyWithVAT.max -/

lemma foldl_max_spec (x : ℚ) (l : List ℚ) :
    (l.foldl Max.max x = x ∨ l.foldl Max.max x ∈ l) ∧
    x ≤ l.foldl Max.max x ∧ ∀ y ∈ l, y ≤ l.foldl Max.max x := by
  induction l generalizing x with
  | nil => simp
  | cons a t ih =>
    obtain ⟨hmem, hle, hub⟩ := ih (Max.max x a)
    have hfold : (a :: t).foldl Max.max x = t.foldl Max.max (Max.max x a) := rfl
    refine ⟨?_, ?_, ?_⟩
    · rw [hfold]
      rcases hmem with h | h
      · rcases max_choice x a with hx | ha
        · exact Or.inl (h.trans hx)
        · exact Or.inr (by rw [h, ha]; exact List.mem_cons_self a t)
      · exact Or.inr (List.mem_cons_of_mem a h)
    · rw [hfold]
      exact le_trans (le_max_left x a) hle
    · intro y hy
      rw [hfold]
      rcases List.mem_cons.mp hy with h | h
      · rw [h]
        exact le_trans (le_max_right x a) hle
      · exact hub y h

lemma collectVats_map (l : List MoneyWithVAT) :
    (l.map MaxArg.vat).foldr collectVats (some []) = some l := by
  induction l with
  | nil => rfl
  | cons a t ih => simp [collectVats, ih]

lemma maxArgsToList_variadic (a b : MoneyWithVAT) (rest : List MoneyWithVAT) :
    maxArgsToList ((a :: b :: rest).map MaxArg.vat) = some (a :: b :: rest) := by
  have h : maxArgsToList ((a :: b :: rest).map MaxArg.vat) =
      ((a :: b :: rest).map MaxArg.vat).foldr collectVats (some []) := rfl
  rw [h, collectVats_map]

/-- C10 (amended): `max` accepts a single sequence or (two or more)
variadic operands; for a non-empty operand list the result has
`net` = the maximum net and `gross` = the maximum gross (equivalently
`tax` = max gross − max net).  On the fixture
`[(100,19),(112,999),(1,2),(99999,0)]` the maximum gross is 99999 (from
the operand `(99999,0)`), so the result is `net = 99999`, `tax = 0`. -/
theorem max_spec :
    (∀ (m : MoneyWithVAT) (rest : List MoneyWithVAT), ∃ r,
      MoneyWithVAT.maxOf [.seq (m :: rest)] = some r ∧
      r.net.amount ∈ (m :: rest).map (fun v => v.net.amount) ∧
      (∀ x ∈ (m :: rest).map (fun v => v.net.amount), x ≤ r.net.amount) ∧
      r.gross.amount ∈ (m :: rest).map (fun v => v.gross.amount) ∧
      (∀ x ∈ (m :: rest).map (fun v => v.gross.amount), x ≤ r.gross.amount)) ∧
    (∀ (a b : MoneyWithVAT) (rest : List MoneyWithVAT),
      MoneyWithVAT.maxOf ((a :: b :: rest).map MaxArg.vat) =
        MoneyWithVAT.maxOf [.seq (a :: b :: rest)]) ∧
    MoneyWithVAT.maxOf
        [.seq [⟨⟨100⟩, ⟨19⟩⟩, ⟨⟨112⟩, ⟨999⟩⟩, ⟨⟨1⟩, ⟨2⟩⟩, ⟨⟨99999⟩, ⟨0⟩⟩]] =
      some ⟨⟨99999⟩, ⟨0⟩⟩ := by
  refine ⟨?_, ?_, ?_⟩
  · intro m rest
    have hnet := foldl_max_spec m.net.amount (rest.map fun v => v.net.amount)
    have hgross := foldl_max_spec m.gross.amount (rest.map fun v => v.gross.amount)
    set netMax := (rest.map fun v => v.net.amount).foldl Max.max m.net.amount with hnm
    set grossMax := (rest.map fun v => v.gross.amount).foldl Max.max m.gross.amount with hgm
    have hcall : MoneyWithVAT.maxOf [.seq (m :: rest)] =
        some ⟨⟨netMax⟩, ⟨grossMax - netMax⟩⟩ := by
      show maxMoneys (m :: rest) = _
      simp only [maxMoneys, hnm, hgm, List.foldl_map]
    refine ⟨⟨⟨netMax⟩, ⟨grossMax - netMax⟩⟩, hcall, ?_, ?_, ?_, ?_⟩
    · rcases hnet.1 with h | h
      · exact List.mem_cons.mpr (Or.inl (by simpa using h))
      · exact List.mem_cons.mpr (Or.inr (by simpa using h))
    · intro x hx
      rcases List.mem_cons.mp hx with h | h
      · rw [h]
        exact hnet.2.1
      · exact hnet.2.2 x h
    · have hg : (MoneyWithVAT.mk ⟨netMax⟩ ⟨grossMax - netMax⟩).gross.amount = grossMax := by
        simp [MoneyWithVAT.gross, Money.add]
      rw [hg]
      rcases hgross.1 with h | h
      · exact List.mem_cons.mpr (Or.inl (by simpa using h))
      · exact List.mem_cons.mpr (Or.inr (by simpa using h))
    · intro x hx
      have hg : (MoneyWithVAT.mk ⟨netMax⟩ ⟨grossMax - netMax⟩).gross.amount = grossMax := by
        simp [MoneyWithVAT.gross, Money.add]
      rw [hg]
      rcases List.mem_cons.mp hx with h | h
      · rw [h]
        exact hgross.2.1
      · exact hgross.2.2 x h
  · intro a b rest
    show (maxArgsToList ((a :: b :: rest).map MaxArg.vat)).bind maxMoneys = _
    rw [maxArgsToList_variadic]
    rfl
  · show maxMoneys [⟨⟨100⟩, ⟨19⟩⟩, ⟨⟨112⟩, ⟨999⟩⟩, ⟨⟨1⟩, ⟨2⟩⟩, ⟨⟨99999⟩, ⟨0⟩⟩] = _
    norm_num [maxMoneys, MoneyWithVAT.gross, Money.add, max_def]

/-- C10 counterexample: on the claim's fixture the code returns tax = 0
(the maximum gross among the operands is 99999, not 1112), refuting the
claimed `tax = −98887` (and the claimed intermediate `max gross = 1112`). -/
theorem max_fixture_counterexample :
    MoneyWithVAT.maxOf
        [.seq [⟨⟨100⟩, ⟨19⟩⟩, ⟨⟨112⟩, ⟨999⟩⟩, ⟨⟨1⟩, ⟨2⟩⟩, ⟨⟨99999⟩, ⟨0⟩⟩]] ≠
      some ⟨⟨99999⟩, ⟨-98887⟩⟩ := by
  have h : MoneyWithVAT.maxOf
      [.seq [⟨⟨100⟩, ⟨19⟩⟩, ⟨⟨112⟩, ⟨999⟩⟩, ⟨⟨1⟩, ⟨2⟩⟩, ⟨⟨99999⟩, ⟨0⟩⟩]] =
      some ⟨⟨99999⟩, ⟨0⟩⟩ := by
    show maxMoneys [⟨⟨100⟩, ⟨19⟩⟩, ⟨⟨112⟩, ⟨999⟩⟩, ⟨⟨1⟩, ⟨2⟩⟩, ⟨⟨99999⟩, ⟨0⟩⟩] = _
    norm_num [maxMoneys, MoneyWithVAT.gross, Money.add, max_def]
  rw [h]
  intro hcontra
  simp only [Option.some.injEq, MoneyWithVAT.mk.injEq, Money.mk.injEq] at hcontra
  have h0 : (0 : ℚ) = -98887 := hcontra.2
  norm_num at h0

/-- C10 witness: the non-empty-operand-list requirement of `max_spec`
holds at a concrete input. -/
theorem max_spec_witness :
    ∃ r, MoneyWithVAT.maxOf [.seq [⟨⟨1⟩, ⟨2⟩⟩]] = some r :=
  (max_spec.1 ⟨⟨1⟩, ⟨2⟩⟩ []).elim fun r hr => ⟨r, hr.1⟩

/-! ## C7: ratio * MoneyWithVAT -/

/-- C7: multiplying a ratio into a `MoneyWithVAT` sets
`net = net_ratio * net` and `tax = gross_ratio * gross − new net`, so the
result's gross is exactly `gross_ratio * gross`; `m * r` delegates to
`r * m`; and on m=(100,19), n=(200,14) the round-trip
`(ratio(m,n) * n).rounded_to_cents() == m.rounded_to_cents()` holds in
both multiplication orders. -/
theorem ratio_mul_spec :
    (∀ (r : MoneyWithVATRatio) (m : MoneyWithVAT),
      (r.mulVat m).net.amount = r.net_ratio * m.net.amount ∧
      (r.mulVat m).tax.amount
          = r.gross_ratio * m.gross.amount - r.net_ratio * m.net.amount ∧
      (r.mulVat m).gross.amount = r.gross_ratio * m.gross.amount) ∧
    (∀ (m : MoneyWithVAT) (r : MoneyWithVATRatio), m.mulArg (.ratio r) = r.mulVat m) ∧
    MoneyWithVAT.ratio (.vat ⟨⟨100⟩, ⟨19⟩⟩) (.vat ⟨⟨200⟩, ⟨14⟩⟩) =
      .ok ⟨1 / 2, 119 / 214⟩ ∧
    ((MoneyWithVATRatio.mk (1 / 2) (119 / 214)).mulVat ⟨⟨200⟩, ⟨14⟩⟩).rounded_to_cents =
      (MoneyWithVAT.mk ⟨100⟩ ⟨19⟩).rounded_to_cents ∧
    ((MoneyWithVAT.mk ⟨200⟩ ⟨14⟩).mulArg
        (.ratio ⟨1 / 2, 119 / 214⟩)).rounded_to_cents =
      (MoneyWithVAT.mk ⟨100⟩ ⟨19⟩).rounded_to_cents := by
  refine ⟨?_, fun m r => rfl, ?_, ?_, ?_⟩
  · intro r m
    refine ⟨?_, ?_, ?_⟩ <;>
      simp only [MoneyWithVATRatio.mulVat, MoneyWithVAT.gross, Money.add, Money.sub,
        Money.neg, Money.mulScalar] <;>
      ring
  · norm_num [MoneyWithVAT.ratio, MoneyWithVATRatio.from_money_with_vat, decDiv,
      MoneyWithVAT.gross, Money.add]
  · norm_num [MoneyWithVATRatio.mulVat, MoneyWithVAT.rounded_to_cents,
      MoneyWithVAT.gross, Money.add, Money.sub, Money.neg, Money.mulScalar, Money.round,
      decRound, roundHalfEven]
  · norm_num [MoneyWithVAT.mulArg, MoneyWithVATRatio.mulVat, MoneyWithVAT.rounded_to_cents,
      MoneyWithVAT.gross, Money.add, Money.sub, Money.neg, Money.mulScalar, Money.round,
      decRound, roundHalfEven]

/-! ## C3: ratio -/

/-- C3 (amended): `ratio` on two `MoneyWithVAT` values is the
componentwise net/gross quotient (so `ratio(m, m) = (1, 1)` for nonzero
components), raises a type error when an argument is not a `MoneyWithVAT`,
and errors whenever a divisor component is zero — `DivisionByZero` when
the dividend component of the first zero division is nonzero,
`InvalidOperation` (division undefined, `0 / 0`) when it is zero. -/
theorem ratio_spec :
    (∀ d v : MoneyWithVAT, v.net.amount ≠ 0 → v.gross.amount ≠ 0 →
      MoneyWithVAT.ratio (.vat d) (.vat v) =
        .ok ⟨d.net.amount / v.net.amount, d.gross.amount / v.gross.amount⟩) ∧
    (∀ m : MoneyWithVAT, m.net.amount ≠ 0 → m.gross.amount ≠ 0 →
      MoneyWithVAT.ratio (.vat m) (.vat m) = .ok ⟨1, 1⟩) ∧
    (∀ d v : MoneyWithVAT, v.net.amount = 0 → d.net.amount ≠ 0 →
      MoneyWithVAT.ratio (.vat d) (.vat v) = .error .divisionByZero) ∧
    (∀ d v : MoneyWithVAT, v.net.amount ≠ 0 → v.gross.amount = 0 → d.gross.amount ≠ 0 →
      MoneyWithVAT.ratio (.vat d) (.vat v) = .error .divisionByZero) ∧
    (∀ d v : MoneyWithVAT, v.net.amount = 0 → d.net.amount = 0 →
      MoneyWithVAT.ratio (.vat d) (.vat v) = .error .invalidOperation) ∧
    (∀ d v : MoneyWithVAT, v.net.amount ≠ 0 → v.gross.amount = 0 → d.gross.amount = 0 →
      MoneyWithVAT.ratio (.vat d) (.vat v) = .error .invalidOperation) ∧
    (∀ x y : Obj, x.isVat = false ∨ y.isVat = false →
      MoneyWithVAT.ratio x y = .error .typeError) := by
  refine ⟨?_, ?_, ?_, ?_, ?_, ?_, ?_⟩
  · intro d v h1 h2
    simp [MoneyWithVAT.ratio, MoneyWithVATRatio.from_money_with_vat, decDiv, h1, h2]
  · intro m h1 h2
    simp [MoneyWithVAT.ratio, MoneyWithVATRatio.from_money_with_vat, decDiv, h1, h2,
      div_self]
  · intro d v h1 h2
    simp [MoneyWithVAT.ratio, MoneyWithVATRatio.from_money_with_vat, decDiv, h1, h2]
  · intro d v h1 h2 h3
    simp [MoneyWithVAT.ratio, MoneyWithVATRatio.from_money_with_vat, decDiv, h1, h2, h3]
  · intro d v h1 h2
    simp [MoneyWithVAT.ratio, MoneyWithVATRatio.from_money_with_vat, decDiv, h1, h2]
  · intro d v h1 h2 h3
    simp [MoneyWithVAT.ratio, MoneyWithVATRatio.from_money_with_vat, decDiv, h1, h2, h3]
  · intro x y h
    cases x <;> cases y <;> simp_all [MoneyWithVAT.ratio, Obj.isVat]

/-- C3 counterexample: with dividend net = divisor net = 0 (divisor
component zero, so the claim demands `DivisionByZero`) the code raises
`InvalidOperation` (`Decimal(0) / Decimal(0)` is division-undefined). -/
theorem ratio_zero_zero_counterexample :
    MoneyWithVAT.ratio (.vat ⟨⟨0⟩, ⟨5⟩⟩) (.vat ⟨⟨0⟩, ⟨5⟩⟩) = .error .invalidOperation ∧
    MoneyWithVAT.ratio (.vat ⟨⟨0⟩, ⟨5⟩⟩) (.vat ⟨⟨0⟩, ⟨5⟩⟩) ≠ .error .divisionByZero := by
  have h : MoneyWithVAT.ratio (.vat ⟨⟨0⟩, ⟨5⟩⟩) (.vat ⟨⟨0⟩, ⟨5⟩⟩) =
      .error .invalidOperation := by
    simp [MoneyWithVAT.ratio, MoneyWithVATRatio.from_money_with_vat, decDiv]
  exact ⟨h, by rw [h]; simp⟩

/-- C3 witness: the hypotheses of `ratio_spec` hold at concrete inputs. -/
theorem ratio_spec_witness :
    (∃ r, MoneyWithVAT.ratio (.vat ⟨⟨2⟩, ⟨0⟩⟩) (.vat ⟨⟨1⟩, ⟨0⟩⟩) = .ok r) ∧
    MoneyWithVAT.ratio (.vat ⟨⟨1⟩, ⟨0⟩⟩) (.vat ⟨⟨1⟩, ⟨0⟩⟩) = .ok ⟨1, 1⟩ ∧
    MoneyWithVAT.ratio (.vat ⟨⟨1⟩, ⟨0⟩⟩) (.vat ⟨⟨0⟩, ⟨1⟩⟩) = .error .divisionByZero ∧
    MoneyWithVAT.ratio (.vat ⟨⟨1⟩, ⟨-1⟩⟩) (.vat ⟨⟨1⟩, ⟨-1⟩⟩) = .error .invalidOperation ∧
    MoneyWithVAT.ratio (.vat ⟨⟨0⟩, ⟨1⟩⟩) (.vat ⟨⟨0⟩, ⟨1⟩⟩) = .error .invalidOperation ∧
    MoneyWithVAT.ratio (.int 3) .pynone = .error .typeError :=
  ⟨⟨_, ratio_spec.1 ⟨⟨2⟩, ⟨0⟩⟩ ⟨⟨1⟩, ⟨0⟩⟩ (by simp)
      (by simp [MoneyWithVAT.gross, Money.add])⟩,
   ratio_spec.2.1 ⟨⟨1⟩, ⟨0⟩⟩ (by simp) (by simp [MoneyWithVAT.gross, Money.add]),
   ratio_spec.2.2.1 ⟨⟨1⟩, ⟨0⟩⟩ ⟨⟨0⟩, ⟨1⟩⟩ (by simp) (by simp),
   ratio_spec.2.2.2.2.2.1 ⟨⟨1⟩, ⟨-1⟩⟩ ⟨⟨1⟩, ⟨-1⟩⟩ (by simp)
      (by simp [MoneyWithVAT.gross, Money.add]) (by simp [MoneyWithVAT.gross, Money.add]),
   ratio_spec.2.2.2.2.1 ⟨⟨0⟩, ⟨1⟩⟩ ⟨⟨0⟩, ⟨1⟩⟩ (by simp) (by simp),
   ratio_spec.2.2.2.2.2.2 (.int 3) .pynone (Or.inl (by simp [Obj.isVat]))⟩

/-! ## C4: safe_ratio -/

/-- C4: `safe_ratio` never raises (it is total into `Option`): it returns
the componentwise net/gross ratio of the two operands after rounding each
to cents, and returns `None` when an operand is `None`, when the divisor
rounds to zero, or when an argument has the wrong type. -/
theorem safe_ratio_spec :
    (∀ d v : MoneyWithVAT,
      v.rounded_to_cents.net.amount ≠ 0 → v.rounded_to_cents.gross.amount ≠ 0 →
      MoneyWithVAT.safe_ratio (.vat d) (.vat v) =
        some ⟨d.rounded_to_cents.net.amount / v.rounded_to_cents.net.amount,
              d.rounded_to_cents.gross.amount / v.rounded_to_cents.gross.amount⟩) ∧
    (∀ x, MoneyWithVAT.safe_ratio .pynone x = none) ∧
    (∀ x, MoneyWithVAT.safe_ratio x .pynone = none) ∧
    (∀ d v : MoneyWithVAT, v.rounded_to_cents = ⟨⟨0⟩, ⟨0⟩⟩ →
      MoneyWithVAT.safe_ratio (.vat d) (.vat v) = none) ∧
    (∀ x y : Obj, x.isVat = false ∨ y.isVat = false →
      MoneyWithVAT.safe_ratio x y = none) := by
  have hsafe : ∀ d v : MoneyWithVAT, MoneyWithVAT.safe_ratio (.vat d) (.vat v) =
      match MoneyWithVATRatio.from_money_with_vat d.rounded_to_cents v.rounded_to_cents with
      | .ok r => some r
      | .error _ => none := fun d v => rfl
  refine ⟨?_, fun x => rfl, ?_, ?_, ?_⟩
  · intro d v h1 h2
    have e1 : decDiv d.rounded_to_cents.net.amount v.rounded_to_cents.net.amount
        = .ok (d.rounded_to_cents.net.amount / v.rounded_to_cents.net.amount) := by
      unfold decDiv
      rw [if_neg h1]
    have e2 : decDiv d.rounded_to_cents.gross.amount v.rounded_to_cents.gross.amount
        = .ok (d.rounded_to_cents.gross.amount / v.rounded_to_cents.gross.amount) := by
      unfold decDiv
      rw [if_neg h2]
    rw [hsafe, MoneyWithVATRatio.from_money_with_vat, e1, e2]
  · intro x
    cases x <;> rfl
  · intro d v hv
    have hnet : v.rounded_to_cents.net.amount = 0 := by rw [hv]
    rw [hsafe, MoneyWithVATRatio.from_money_with_vat]
    rw [show decDiv d.rounded_to_cents.net.amount v.rounded_to_cents.net.amount
        = .error (if d.rounded_to_cents.net.amount = 0 then .invalidOperation
          else .divisionByZero) from by unfold decDiv; rw [if_pos hnet]]
  · intro x y h
    cases x <;> cases y <;> try rfl
    all_goals simp [Obj.isVat] at h

lemma rounded_one_zero :
    (MoneyWithVAT.mk ⟨1⟩ ⟨0⟩).rounded_to_cents = ⟨⟨1⟩, ⟨0⟩⟩ := by
  norm_num [MoneyWithVAT.rounded_to_cents, MoneyWithVAT.gross, Money.add, Money.sub,
    Money.neg, Money.round, decRound, roundHalfEven]

lemma rounded_zero_zero :
    (MoneyWithVAT.mk ⟨0⟩ ⟨0⟩).rounded_to_cents = ⟨⟨0⟩, ⟨0⟩⟩ := by
  norm_num [MoneyWithVAT.rounded_to_cents, MoneyWithVAT.gross, Money.add, Money.sub,
    Money.neg, Money.round, decRound, roundHalfEven]

/-- C4 witness: the hypotheses of `safe_ratio_spec` hold at concrete
inputs. -/
theorem safe_ratio_spec_witness :
    (∃ r, MoneyWithVAT.safe_ratio (.vat ⟨⟨1⟩, ⟨0⟩⟩) (.vat ⟨⟨1⟩, ⟨0⟩⟩) = some r) ∧
    MoneyWithVAT.safe_ratio (.vat ⟨⟨1⟩, ⟨0⟩⟩) (.vat ⟨⟨0⟩, ⟨0⟩⟩) = none ∧
    MoneyWithVAT.safe_ratio (.int 3) (.vat ⟨⟨1⟩, ⟨0⟩⟩) = none :=
  ⟨⟨_, safe_ratio_spec.1 ⟨⟨1⟩, ⟨0⟩⟩ ⟨⟨1⟩, ⟨0⟩⟩ (by simp [rounded_one_zero])
      (by simp [rounded_one_zero, MoneyWithVAT.gross, Money.add])⟩,
   safe_ratio_spec.2.2.2.1 ⟨⟨1⟩, ⟨0⟩⟩ ⟨⟨0⟩, ⟨0⟩⟩ rounded_zero_zero,
   safe_ratio_spec.2.2.2.2 (.int 3) (.vat ⟨⟨1⟩, ⟨0⟩⟩) (Or.inl (by simp [Obj.isVat]))⟩

/-! ## C6: incompatible operands and the reverse-zero special case -/

/-- C6 (amended): `Money * Money` and `MoneyWithVAT + non-MoneyWithVAT`
fail with a type-mismatch error, reverse arithmetic with a non-zero
non-Money left operand fails with `TypeError`, and the literal-zero
special case gives `0 + m == m` for `Money` and `MoneyWithVAT` and
`0 - m == -m` for `Money`; for `MoneyWithVAT`, however,
`__rsub__ = __sub__` makes `0 - m` evaluate `m.__add__(-0)` and fail with
`AttributeError` instead of returning `-m`. -/
theorem reverse_dispatch_spec :
    (∀ a b : Money, pyMul (.money a) (.money b) = .error .typeError) ∧
    (∀ (v : MoneyWithVAT) (n : ℤ), pyAdd (.vat v) (.int n) = .error .attributeError) ∧
    (∀ (v : MoneyWithVAT) (m : Money), pyAdd (.vat v) (.money m) = .error .attributeError) ∧
    (∀ n : ℤ, n ≠ 0 → ∀ m : Money, pyAdd (.int n) (.money m) = .error .typeError ∧
      pySub (.int n) (.money m) = .error .typeError) ∧
    (∀ n : ℤ, n ≠ 0 → ∀ v : MoneyWithVAT, pyAdd (.int n) (.vat v) = .error .typeError) ∧
    (∀ m : Money, pyAdd (.int 0) (.money m) = .ok (.money m) ∧
      pySub (.int 0) (.money m) = .ok (.money m.neg)) ∧
    (∀ v : MoneyWithVAT, pyAdd (.int 0) (.vat v) = .ok (.vat v)) ∧
    (∀ (v : MoneyWithVAT) (n : ℤ), pySub (.int n) (.vat v) = .error .attributeError) := by
  refine ⟨fun a b => rfl, fun v n => rfl, fun v m => rfl, ?_, ?_,
    fun m => ⟨rfl, rfl⟩, fun v => rfl, fun v n => rfl⟩
  · intro n h m
    have hr : Money.raddMethod m (.int n) = none := by
      simp [Money.raddMethod, h]
    have hrs : Money.rsubMethod m (.int n) = none := by
      simp [Money.rsubMethod, Money.raddMethod, h]
    exact ⟨by simp [pyAdd, addMethodOf, intAddMethod, raddMethodOf, hr],
      by simp [pySub, subMethodOf, intSubMethod, rsubMethodOf, hrs]⟩
  · intro n h v
    have hr : MoneyWithVAT.raddMethod v (.int n) = none := by
      simp [MoneyWithVAT.raddMethod, h]
    simp [pyAdd, addMethodOf, intAddMethod, raddMethodOf, hr]

/-- C6 counterexample: `0 - m` for a `MoneyWithVAT` `m` raises
`AttributeError` (because `__rsub__` is aliased to `__sub__`), instead of
returning `-m` as the claim states. -/
theorem rsub_zero_vat_counterexample :
    pySub (.int 0) (.vat ⟨⟨1⟩, ⟨2⟩⟩) = .error .attributeError ∧
    pySub (.int 0) (.vat ⟨⟨1⟩, ⟨2⟩⟩) ≠
      .ok (.vat (MoneyWithVAT.mk ⟨1⟩ ⟨2⟩).negVat) := by
  refine ⟨rfl, fun h => ?_⟩
  have h2 : (Except.error PyErr.attributeError : Except PyErr Obj) =
      Except.ok (.vat (MoneyWithVAT.mk ⟨1⟩ ⟨2⟩).negVat) := h
  exact Except.noConfusion h2

/-- C6 witness: the non-zero hypotheses of `reverse_dispatch_spec` hold at
concrete inputs. -/
theorem reverse_dispatch_spec_witness :
    (pyAdd (.int 5) (.money ⟨1⟩) = .error .typeError ∧
      pySub (.int 5) (.money ⟨1⟩) = .error .typeError) ∧
    pyAdd (.int 5) (.vat ⟨⟨1⟩, ⟨2⟩⟩) = .error .typeError :=
  ⟨reverse_dispatch_spec.2.2.2.1 5 (by decide) ⟨1⟩,
   reverse_dispatch_spec.2.2.2.2.1 5 (by decide) ⟨⟨1⟩, ⟨2⟩⟩⟩

/-! ## C8: canonical encoding and round-trip -/

lemma digitChar_lt_ten {d : ℕ} (h : d < 10) :
    charToDigit (Nat.digitChar d) = some d ∧
    Nat.digitChar d ≠ '.' ∧ Nat.digitChar d ≠ '-' ∧
    Nat.digitChar d ≠ 'E' ∧ Nat.digitChar d ≠ 'e' := by
  interval_cases d <;> exact ⟨rfl, by decide, by decide, by decide, by decide⟩

lemma mem_natCharsAux (fuel : ℕ) : ∀ (n : ℕ) (c : Char), c ∈ natCharsAux fuel n →
    ∃ d, d < 10 ∧ c = Nat.digitChar d := by
  induction fuel with
  | zero =>
    intro n c hc
    simp [natCharsAux] at hc
  | succ fuel ih =>
    intro n c hc
    rw [natCharsAux] at hc
    by_cases h : n = 0
    · rw [if_pos h] at hc
      simp at hc
    · rw [if_neg h] at hc
      rcases List.mem_append.mp hc with h1 | h1
      · exact ih _ _ h1
      · exact ⟨n % 10, Nat.mod_lt n (by norm_num), by simpa using h1⟩

lemma parseFold_none (l : List Char) : l.foldl stepDigit none = none := by
  induction l with
  | nil => rfl
  | cons c t ih =>
    show t.foldl stepDigit (stepDigit none c) = none
    rw [show stepDigit none c = none from rfl]
    exact ih

lemma parseFold_append (l₁ l₂ : List Char) (acc : ℕ) :
    parseFold (l₁ ++ l₂) acc =
      match parseFold l₁ acc with
      | some x => parseFold l₂ x
      | none => none := by
  unfold parseFold
  rw [List.foldl_append]
  cases h : List.foldl stepDigit (some acc) l₁ with
  | none => exact parseFold_none l₂
  | some x => rfl

lemma natCharsAux_val (fuel : ℕ) : ∀ n acc : ℕ, n < 10 ^ fuel →
    parseFold (natCharsAux fuel n) acc
      = some (acc * 10 ^ (natCharsAux fuel n).length + n) := by
  induction fuel with
  | zero =>
    intro n acc hn
    have h0 : n = 0 := Nat.lt_one_iff.mp (by simpa using hn)
    subst h0
    simp [natCharsAux, parseFold]
  | succ fuel ih =>
    intro n acc hn
    by_cases h : n = 0
    · subst h
      simp [natCharsAux, parseFold]
    · rw [natCharsAux, if_neg h]
      have hdiv : n / 10 < 10 ^ fuel := by
        rw [Nat.div_lt_iff_lt_mul (by norm_num : 0 < 10)]
        calc n < 10 ^ (fuel + 1) := hn
        _ = 10 ^ fuel * 10 := by ring
      rw [parseFold_append, ih (n / 10) acc hdiv]
      have hd10 : n % 10 < 10 := Nat.mod_lt n (by norm_num)
      show parseFold [Nat.digitChar (n % 10)] _ = _
      unfold parseFold
      simp only [List.foldl_cons, List.foldl_nil]
      rw [show stepDigit (some (acc * 10 ^ (natCharsAux fuel (n / 10)).length + n / 10))
            (Nat.digitChar (n % 10))
          = some ((acc * 10 ^ (natCharsAux fuel (n / 10)).length + n / 10) * 10 + n % 10)
        from by unfold stepDigit; rw [(digitChar_lt_ten hd10).1]]
      have hmod := Nat.div_add_mod n 10
      congr 1
      simp only [List.length_append, List.length_cons, List.length_nil]
      calc (acc * 10 ^ (natCharsAux fuel (n / 10)).length + n / 10) * 10 + n % 10
          = acc * (10 ^ (natCharsAux fuel (n / 10)).length * 10)
              + (10 * (n / 10) + n % 10) := by ring
        _ = acc * 10 ^ ((natCharsAux fuel (n / 10)).length + 0 + 1) + n := by
            rw [hmod, pow_succ]

lemma natCharsAux_len (fuel : ℕ) : ∀ n k : ℕ, n < 10 ^ k →
    (natCharsAux fuel n).length ≤ k := by
  induction fuel with
  | zero =>
    intro n k _
    simp [natCharsAux]
  | succ fuel ih =>
    intro n k hn
    by_cases h : n = 0
    · rw [natCharsAux, if_pos h]
      simp
    · rw [natCharsAux, if_neg h]
      cases k with
      | zero => exact absurd (Nat.lt_one_iff.mp (by simpa using hn)) h
      | succ k =>
        have hdiv : n / 10 < 10 ^ k := by
          rw [Nat.div_lt_iff_lt_mul (by norm_num : 0 < 10)]
          calc n < 10 ^ (k + 1) := hn
          _ = 10 ^ k * 10 := by ring
        have hl := ih (n / 10) k hdiv
        simp only [List.length_append, List.length_cons, List.length_nil]
        omega

lemma natChars_val (n : ℕ) : parseFold (natChars n) 0 = some n := by
  by_cases h : n = 0
  · subst h
    rfl
  · rw [natChars, if_neg h]
    have hb : n < 10 ^ (n + 1) :=
      lt_of_lt_of_le (Nat.lt_pow_self (by norm_num) n)
        (Nat.pow_le_pow_right (by norm_num) (Nat.le_succ n))
    rw [natCharsAux_val (n + 1) n 0 hb]
    simp

lemma natChars_ne_nil (n : ℕ) : natChars n ≠ [] := by
  by_cases h : n = 0
  · subst h
    simp [natChars]
  · rw [natChars, if_neg h, natCharsAux, if_neg h]
    simp

lemma mem_natChars (n : ℕ) (c : Char) (hc : c ∈ natChars n) :
    ∃ d, d < 10 ∧ c = Nat.digitChar d := by
  by_cases h : n = 0
  · subst h
    rw [show natChars 0 = ['0'] from rfl] at hc
    simp only [List.mem_singleton] at hc
    exact ⟨0, by norm_num, hc⟩
  · rw [natChars, if_neg h] at hc
    exact mem_natCharsAux _ _ _ hc

lemma parseFold_replicate_zero (k : ℕ) : parseFold (List.replicate k '0') 0 = some 0 := by
  induction k with
  | zero => rfl
  | succ k ih =>
    rw [List.replicate_succ]
    show List.foldl stepDigit (stepDigit (some 0) '0') _ = _
    rw [show stepDigit (some 0) '0' = some 0 from rfl]
    exact ih

lemma fracChars_spec (b : ℕ) (hb : b < 10 ^ 12) :
    parseFold (fracChars b) 0 = some b ∧ (fracChars b).length = 12 := by
  have hlen : (natCharsAux (b + 1) b).length ≤ 12 := natCharsAux_len (b + 1) b 12 hb
  have hb2 : b < 10 ^ (b + 1) :=
    lt_of_lt_of_le (Nat.lt_pow_self (by norm_num) b)
      (Nat.pow_le_pow_right (by norm_num) (Nat.le_succ b))
  have hval : parseFold (natCharsAux (b + 1) b) 0 = some b := by
    rw [natCharsAux_val (b + 1) b 0 hb2]
    simp
  constructor
  · simp only [fracChars]
    rw [parseFold_append, parseFold_replicate_zero]
    exact hval
  · simp only [fracChars, List.length_append, List.length_replicate]
    omega

lemma mem_fracChars (b : ℕ) (c : Char) (hc : c ∈ fracChars b) :
    ∃ d, d < 10 ∧ c = Nat.digitChar d := by
  simp only [fracChars] at hc
  rcases List.mem_append.mp hc with h | h
  · rw [List.eq_of_mem_replicate h]
    exact ⟨0, by norm_num, rfl⟩
  · exact mem_natCharsAux _ _ _ h

lemma splitAtDot_append (ip fp : List Char) (h : ∀ c ∈ ip, c ≠ '.') :
    splitAtDot (ip ++ '.' :: fp) = (ip, some fp) := by
  induction ip with
  | nil => simp [splitAtDot]
  | cons c t ih =>
    have hc : c ≠ '.' := h c (List.mem_cons_self c t)
    have ht := ih fun x hx => h x (List.mem_cons_of_mem c hx)
    rw [List.cons_append, splitAtDot, if_neg hc, ht]

lemma parseUnsigned_canonical (a b : ℕ) (hb : b < 10 ^ 12) :
    parseUnsigned (natChars a ++ '.' :: fracChars b)
      = some ((a : ℚ) + (b : ℚ) / 10 ^ 12) := by
  have hdot : ∀ c ∈ natChars a, c ≠ '.' := by
    intro c hc
    obtain ⟨d, hd, rfl⟩ := mem_natChars a c hc
    exact (digitChar_lt_ten hd).2.1
  simp only [parseUnsigned, splitAtDot_append _ _ hdot]
  rw [natChars_val a, (fracChars_spec b hb).1, (fracChars_spec b hb).2]

lemma parseDecimalChars_nonneg (a b : ℕ) (hb : b < 10 ^ 12) :
    parseDecimalChars (natChars a ++ '.' :: fracChars b)
      = some ((a : ℚ) + (b : ℚ) / 10 ^ 12) := by
  obtain ⟨c, t, hct⟩ := List.exists_cons_of_ne_nil (natChars_ne_nil a)
  have hcm : c ∈ natChars a := by
    rw [hct]
    exact List.mem_cons_self c t
  obtain ⟨d, hd, hcd⟩ := mem_natChars a c hcm
  have hnd : c ≠ '-' := hcd ▸ (digitChar_lt_ten hd).2.2.1
  rw [hct, List.cons_append, parseDecimalChars, if_neg hnd, ← List.cons_append, ← hct]
  exact parseUnsigned_canonical a b hb

lemma parseDecimalChars_neg (a b : ℕ) (hb : b < 10 ^ 12) :
    parseDecimalChars ('-' :: (natChars a ++ '.' :: fracChars b))
      = some (-((a : ℚ) + (b : ℚ) / 10 ^ 12)) := by
  rw [parseDecimalChars, if_pos rfl, parseUnsigned_canonical a b hb]
  rfl

lemma roundHalfEven_intCast (k : ℤ) : roundHalfEven (k : ℚ) = k := by
  norm_num [roundHalfEven, Int.floor_intCast]

lemma for_json_closed (m : Money)
    (h : (roundHalfEven (m.amount * 10 ^ 12)).natAbs < 10 ^ 28) :
    m.for_json = some (String.mk
      ((if roundHalfEven (m.amount * 10 ^ 12) < 0 then ['-'] else []) ++
        natChars ((roundHalfEven (m.amount * 10 ^ 12)).natAbs / 10 ^ 12) ++
        '.' :: fracChars ((roundHalfEven (m.amount * 10 ^ 12)).natAbs % 10 ^ 12))) := by
  simp only [Money.for_json]
  rw [if_pos h]

lemma nat_div_mod_cast_q (kk : ℕ) :
    ((kk / 10 ^ 12 : ℕ) : ℚ) + ((kk % 10 ^ 12 : ℕ) : ℚ) / 10 ^ 12
      = (kk : ℚ) / 10 ^ 12 := by
  have hdm : 10 ^ 12 * (kk / 10 ^ 12) + kk % 10 ^ 12 = kk := Nat.div_add_mod kk (10 ^ 12)
  have h2 : ((10 ^ 12 * (kk / 10 ^ 12) + kk % 10 ^ 12 : ℕ) : ℚ) = (kk : ℚ) := by
    rw [hdm]
  push_cast at h2
  field_simp
  linarith [h2]

/-- C8 (amended): the canonical `Money` encoding is a fixed-point decimal
string with exactly 12 fractional digits and no exponent marker, and
`decode(encode(m)) == m` holds for every `Money` (and componentwise for
every `MoneyWithVAT`) whose amount is an integer multiple of `10⁻¹²` with
`|amount| < 10¹⁶`; amounts with more than 12 fractional digits are rounded
by the encoder, so the unrestricted round-trip of the original claim
fails. -/
theorem for_json_roundtrip_spec :
    (∀ (m : Money) (s : String), m.for_json = some s →
      ∃ ip fp, s.data = ip ++ '.' :: fp ∧ fp.length = 12 ∧
        ∀ c ∈ s.data, c ≠ 'E' ∧ c ≠ 'e') ∧
    (∀ (m : Money) (k : ℤ), m.amount = (k : ℚ) / 10 ^ 12 → |m.amount| < 10 ^ 16 →
      ∃ s, m.for_json = some s ∧ decodeMoney s = some m) ∧
    (∀ (v : MoneyWithVAT) (kn kt : ℤ),
      v.net.amount = (kn : ℚ) / 10 ^ 12 → |v.net.amount| < 10 ^ 16 →
      v.tax.amount = (kt : ℚ) / 10 ^ 12 → |v.tax.amount| < 10 ^ 16 →
      ∃ p, v.for_json = some p ∧ decodeVat p = some v) := by
  have hshape : ∀ (m : Money) (s : String), m.for_json = some s →
      ∃ ip fp, s.data = ip ++ '.' :: fp ∧ fp.length = 12 ∧
        ∀ c ∈ s.data, c ≠ 'E' ∧ c ≠ 'e' := by
    intro m s hs
    by_cases hg : (roundHalfEven (m.amount * 10 ^ 12)).natAbs < 10 ^ 28
    · rw [for_json_closed m hg] at hs
      have hx := Option.some.inj hs
      set kq := roundHalfEven (m.amount * 10 ^ 12) with hkq
      refine ⟨(if kq < 0 then ['-'] else []) ++ natChars (kq.natAbs / 10 ^ 12),
        fracChars (kq.natAbs % 10 ^ 12), ?_, ?_, ?_⟩
      · rw [← hx]
      · exact (fracChars_spec _ (Nat.mod_lt _ (by norm_num))).2
      · intro c hc
        rw [← hx] at hc
        have hc2 : c ∈ (if kq < 0 then ['-'] else []) ++ natChars (kq.natAbs / 10 ^ 12) ++
            '.' :: fracChars (kq.natAbs % 10 ^ 12) := hc
        rcases List.mem_append.mp hc2 with h1 | h1
        · rcases List.mem_append.mp h1 with h2 | h2
          · rcases Decidable.em (kq < 0) with hneg | hneg
            · rw [if_pos hneg] at h2
              rw [List.eq_of_mem_singleton h2]
              exact ⟨by decide, by decide⟩
            · rw [if_neg hneg] at h2
              exact absurd h2 (List.not_mem_nil c)
          · obtain ⟨d, hd, rfl⟩ := mem_natChars _ c h2
            exact ⟨(digitChar_lt_ten hd).2.2.2.1, (digitChar_lt_ten hd).2.2.2.2⟩
        · rcases List.mem_cons.mp h1 with h2 | h2
          · rw [h2]
            exact ⟨by decide, by decide⟩
          · obtain ⟨d, hd, rfl⟩ := mem_fracChars _ c h2
            exact ⟨(digitChar_lt_ten hd).2.2.2.1, (digitChar_lt_ten hd).2.2.2.2⟩
    · exfalso
      simp only [Money.for_json] at hs
      rw [if_neg hg] at hs
      exact Option.noConfusion hs
  have hmoney : ∀ (m : Money) (k : ℤ), m.amount = (k : ℚ) / 10 ^ 12 →
      |m.amount| < 10 ^ 16 → ∃ s, m.for_json = some s ∧ decodeMoney s = some m := by
    intro m k hk hb
    have hq : m.amount * 10 ^ 12 = (k : ℚ) := by
      rw [hk]
      field_simp
    have hrk : roundHalfEven (m.amount * 10 ^ 12) = k := by
      rw [hq]
      exact roundHalfEven_intCast k
    have habs : (k.natAbs : ℚ) < 10 ^ 28 := by
      have h1 : |(k : ℚ)| < 10 ^ 16 * 10 ^ 12 := by
        rw [← hq, abs_mul, abs_of_pos (show (0:ℚ) < 10 ^ 12 by positivity)]
        exact mul_lt_mul_of_pos_right hb (by positivity)
      calc (k.natAbs : ℚ) = |(k : ℚ)| := by
            rw [Int.cast_natAbs, Int.cast_abs]
        _ < 10 ^ 16 * 10 ^ 12 := h1
        _ = 10 ^ 28 := by norm_num
    have hlt : k.natAbs < 10 ^ 28 := by exact_mod_cast habs
    have hg : (roundHalfEven (m.amount * 10 ^ 12)).natAbs < 10 ^ 28 := by
      rw [hrk]
      exact hlt
    have hbb : k.natAbs % 10 ^ 12 < 10 ^ 12 := Nat.mod_lt _ (by norm_num)
    have hJ := for_json_closed m hg
    rw [hrk] at hJ
    have hval : ((k.natAbs / 10 ^ 12 : ℕ) : ℚ) + ((k.natAbs % 10 ^ 12 : ℕ) : ℚ) / 10 ^ 12
        = (k.natAbs : ℚ) / 10 ^ 12 := nat_div_mod_cast_q k.natAbs
    rcases lt_or_ge k 0 with hneg | hpos
    · have hsign : ((k.natAbs : ℕ) : ℚ) = -(k : ℚ) := by
        rw [Int.cast_natAbs, Int.cast_abs]
        exact abs_of_neg (by exact_mod_cast hneg)
      rw [if_pos hneg] at hJ
      refine ⟨_, hJ, ?_⟩
      show (parseDecimalChars ('-' :: (natChars (k.natAbs / 10 ^ 12) ++
        '.' :: fracChars (k.natAbs % 10 ^ 12)))).map Money.mk = some m
      rw [parseDecimalChars_neg _ _ hbb, hval, hsign]
      have hmv : -(-(k : ℚ) / 10 ^ 12) = m.amount := by
        rw [hk]
        ring
      rw [hmv, Option.map_some']
    · have hsign : ((k.natAbs : ℕ) : ℚ) = (k : ℚ) := by
        rw [Int.cast_natAbs, Int.cast_abs]
        exact abs_of_nonneg (by exact_mod_cast hpos)
      rw [if_neg (not_lt.mpr hpos)] at hJ
      refine ⟨_, hJ, ?_⟩
      show (parseDecimalChars (List.nil ++ (natChars (k.natAbs / 10 ^ 12) ++
        '.' :: fracChars (k.natAbs % 10 ^ 12)))).map Money.mk = some m
      rw [List.nil_append, parseDecimalChars_nonneg _ _ hbb, hval, hsign]
      have hmv : (k : ℚ) / 10 ^ 12 = m.amount := by rw [hk]
      rw [hmv, Option.map_some']
  refine ⟨hshape, hmoney, ?_⟩
  intro v kn kt hn1 hn2 ht1 ht2
  obtain ⟨s1, hs1, hd1⟩ := hmoney v.net kn hn1 hn2
  obtain ⟨s2, hs2, hd2⟩ := hmoney v.tax kt ht1 ht2
  refine ⟨(s1, s2), ?_, ?_⟩
  · unfold MoneyWithVAT.for_json
    rw [hs1, hs2]
  · unfold decodeVat
    rw [show ((s1, s2) : String × String).1 = s1 from rfl,
      show ((s1, s2) : String × String).2 = s2 from rfl, hd1, hd2]

/-- C8 counterexample: a `Money` with amount `10⁻¹³` (fewer than the
persisted 12 fractional digits can hold) encodes to `"0.000000000000"`,
which decodes to `Money(0) ≠ Money(10⁻¹³)` — `decode(encode(m)) == m`
fails for very small magnitudes. -/
theorem money_roundtrip_counterexample :
    ((Money.mk ((1 : ℚ) / 10 ^ 13)).for_json.bind decodeMoney)
        = some (Money.mk 0) ∧
    some (Money.mk (0 : ℚ)) ≠ some (Money.mk ((1 : ℚ) / 10 ^ 13)) := by
  constructor
  · have hr : roundHalfEven ((1 : ℚ) / 10 ^ 13 * 10 ^ 12) = 0 := by
      norm_num [roundHalfEven]
    have hg : (roundHalfEven ((Money.mk ((1 : ℚ) / 10 ^ 13)).amount * 10 ^ 12)).natAbs
        < 10 ^ 28 := by
      rw [show (Money.mk ((1 : ℚ) / 10 ^ 13)).amount = (1 : ℚ) / 10 ^ 13 from rfl, hr]
      norm_num
    have hJ := for_json_closed (Money.mk ((1 : ℚ) / 10 ^ 13)) hg
    rw [show (Money.mk ((1 : ℚ) / 10 ^ 13)).amount = (1 : ℚ) / 10 ^ 13 from rfl, hr] at hJ
    rw [hJ]
    show (parseDecimalChars (List.nil ++ (natChars ((0 : ℤ).natAbs / 10 ^ 12) ++
      '.' :: fracChars ((0 : ℤ).natAbs % 10 ^ 12)))).map Money.mk = some (Money.mk 0)
    rw [List.nil_append]
    rw [show (0 : ℤ).natAbs / 10 ^ 12 = 0 from rfl, show (0 : ℤ).natAbs % 10 ^ 12 = 0 from rfl]
    rw [parseDecimalChars_nonneg 0 0 (by norm_num)]
    norm_num
  · intro h
    have h2 := Money.mk.inj (Option.some.inj h)
    norm_num at h2

lemma c8_amount_eq : (Money.mk ((5 : ℚ) / 4)).amount
    = ((1250000000000 : ℤ) : ℚ) / 10 ^ 12 := by
  norm_num

lemma c8_amount_small : |(Money.mk ((5 : ℚ) / 4)).amount| < 10 ^ 16 := by
  rw [show (Money.mk ((5 : ℚ) / 4)).amount = (5 : ℚ) / 4 from rfl,
    abs_of_pos (by norm_num : (0 : ℚ) < 5 / 4)]
  norm_num

/-- C8 witness: the round-trip hypotheses hold at the concrete input
`Money(1.25)`. -/
theorem for_json_roundtrip_spec_witness :
    ∃ s, (Money.mk ((5 : ℚ) / 4)).for_json = some s ∧
      decodeMoney s = some (Money.mk ((5 : ℚ) / 4)) :=
  for_json_roundtrip_spec.2.1 (Money.mk ((5 : ℚ) / 4)) 1250000000000
    c8_amount_eq c8_amount_small

end AlascoMoney
